import Mathlib

set_option maxRecDepth 8192

/-!
Shallow embedding of the agent core in `src/langchain.py` and of the tool
adapter in `src/tools/replicate.py`.

Strings are modelled as `List Char`.  The Python library primitives that the
source leans on (`str.split`, `str.strip`, the `in` operator, `re.search`)
are embedded as executable functions below; each carries a comment recording
the Python behaviour it models.
-/

/-- The character list of a string literal. -/
def chars (s : String) : List Char := s.data

/-- The ASCII characters that Python treats as whitespace in `str.strip()`
with no argument and in the regex class `\s`. -/
def pyIsSpace (c : Char) : Bool :=
  c = ' ' || c = '\t' || c = '\n' || c = '\r' || c = '\x0b' || c = '\x0c'

/-- Remove the longest trailing run of characters satisfying `p`. -/
def dropTrailing (p : Char → Bool) (l : List Char) : List Char :=
  (l.reverse.dropWhile p).reverse

/-- Python `str.strip(cs)`: remove the characters satisfying `p` from both
ends (every matching character, not just one layer). -/
def pyStrip (p : Char → Bool) (l : List Char) : List Char :=
  dropTrailing p (l.dropWhile p)

/-- Python `str.strip()` with no argument: strip whitespace from both ends. -/
def pyTrim (l : List Char) : List Char := pyStrip pyIsSpace l

/-- Python `m in s`: does `m` occur as a contiguous substring of `s`? -/
def containsSub (m : List Char) : List Char → Bool
  | [] => m.isEmpty
  | c :: rest => m.isPrefixOf (c :: rest) || containsSub m rest

/-- Index of the leftmost occurrence of `m` in `s` (Python `s.find(m)`,
with `none` for `-1`). -/
def firstOcc (m : List Char) : List Char → Option Nat
  | [] => if m.isEmpty then some 0 else none
  | c :: rest =>
    if m.isPrefixOf (c :: rest) then some 0
    else (firstOcc m rest).map (· + 1)

/-- Python `s.split(m)` for a nonempty separator `m`: non-overlapping
occurrences are cut out scanning left to right.  The `fuel` argument makes
the recursion structural; it is sufficient whenever `fuel ≥ s.length`,
since every step consumes at least one character of `s`. -/
def pySplitAux (m : List Char) : Nat → List Char → List (List Char)
  | _, [] => [[]]
  | 0, s => [s]
  | fuel + 1, c :: rest =>
    if m.isPrefixOf (c :: rest) then
      [] :: pySplitAux m fuel (List.drop (m.length - 1) rest)
    else
      match pySplitAux m fuel rest with
      | [] => [c :: rest]
      | h :: t => (c :: h) :: t

/-- Python `s.split(m)` (for the nonempty separators used by the source). -/
def pySplit (m s : List Char) : List (List Char) := pySplitAux m s.length s

/-- Python `xs[-1]` on a split result; a split result is never empty. -/
def lastPart (ls : List (List Char)) : List Char := ls.getLastD []

/-- The suffix of `s` strictly after the last (rightmost) occurrence of `m`
in `s`, or `none` when `m` does not occur: occurrences found deeper in the
list (further right) take precedence over one at the head. -/
def afterLast (m : List Char) : List Char → Option (List Char)
  | [] => none
  | c :: rest =>
    match afterLast m rest with
    | some r => some r
    | none =>
      if m.isPrefixOf (c :: rest) then some (List.drop m.length (c :: rest))
      else none

/-- The terminal marker `"Final Answer:"` tested by `CustomOutputParser.parse`. -/
def finalMarker : List Char := chars "Final Answer:"

/-- The literal `"Action: "` opening the action pattern. -/
def actionHdr : List Char := chars "Action: "

/-- The literal `"Action Input:"` in the action pattern. -/
def actionInputHdr : List Char := chars "Action Input:"

/--
Model of `re.search(r"Action: (.*?)[\n]*Action Input:[\s]*(.*)", s, re.DOTALL)`
from `CustomOutputParser.parse`, returning `(group 1, group 2)`.

Derivation from Python regex semantics, with `.` matching newlines:
* a match starting at `i` needs the literal `"Action: "` at `i` and an
  occurrence of `"Action Input:"` at some `q ≥ i + 8` (the non-greedy
  `(.*?)` and the greedy `[\n]*` can span anything in between); hence if the
  leftmost `"Action: "` occurrence admits no such `q`, no occurrence does,
  and `re.search` fails; otherwise the leftmost match starts at the leftmost
  `"Action: "` occurrence;
* `(.*?)` is as short as possible, so `"Action Input:"` is matched at its
  first occurrence `q` after the captured name, and the greedy `[\n]*`
  absorbs the maximal run of newlines immediately before `q`; group 1 is
  what remains between the header and that newline run;
* after the literal, the greedy `[\s]*` absorbs the maximal whitespace run,
  and the final greedy `(.*)` (group 2) takes everything to the end.
-/
def actionMatch (s : List Char) : Option (List Char × List Char) :=
  match firstOcc actionHdr s with
  | none => none
  | some i =>
    let region := List.drop (i + actionHdr.length) s
    match firstOcc actionInputHdr region with
    | none => none
    | some q =>
      some (dropTrailing (fun c => c = '\n') (List.take q region),
            List.dropWhile pyIsSpace (List.drop (q + actionInputHdr.length) region))

/-- The payload of the langchain `AgentAction(tool, tool_input, log)`. -/
structure AgentAction where
  tool : List Char
  tool_input : List Char
  log : List Char
  deriving DecidableEq, Repr

/-- The two shapes `CustomOutputParser.parse` can return: the langchain
`AgentFinish` (with its single `output` return value and the raw log) or an
`AgentAction`. -/
inductive ParsedOutput where
  | finish (output : List Char) (log : List Char)
  | act (action : AgentAction)
  deriving DecidableEq, Repr

/-- A raised Python exception, reduced to its `args` tuple (the only part
the source ever inspects, in the `except` branches). -/
structure PyExn where
  args : List (List Char)
  deriving DecidableEq, Repr

deriving instance DecidableEq for Except

/-- Embedding of `CustomOutputParser.parse` from `src/langchain.py`:
final-answer branch first (`"Final Answer:" in llm_output`, split on the
marker, keep the last part, `strip()`), then the action regex; the captured
name is `strip()`ped, the captured input is `.strip(" ").strip(chr(34))`;
no match raises `ValueError(f"Could not parse LLM output: ...")`. -/
def CustomOutputParser.parse (llm_output : List Char) : Except PyExn ParsedOutput :=
  if containsSub finalMarker llm_output then
    .ok (.finish (pyTrim (lastPart (pySplit finalMarker llm_output))) llm_output)
  else
    match actionMatch llm_output with
    | none => .error ⟨[chars "Could not parse LLM output: `" ++ llm_output ++ chars "`"]⟩
    | some (g1, g2) =>
      .ok (.act ⟨pyTrim g1, pyStrip (fun c => c = '"') (pyStrip (fun c => c = ' ') g2),
        llm_output⟩)

/-- The literal `"\nObservation: "` appended after each action log in the scratchpad. -/
def obsMark : List Char := chars "\nObservation: "

/-- The literal `"\nThought: "` closing each scratchpad step. -/
def thoughtMark : List Char := chars "\nThought: "

/-- The literal `"\n\nObservation: "` used in `latest_thoughts`. -/
def latestSep : List Char := chars "\n\nObservation: "

/-- One pass of the loop body in `CustomPromptTemplate.format_messages`:
`thoughts += action.log; thoughts += f"\nObservation: {observation}\nThought: "`
and `latest_thoughts = f"{action.log}\n\nObservation: {observation}"`. -/
def sfStep (acc : List Char × List Char) (p : AgentAction × List Char) :
    List Char × List Char :=
  (acc.1 ++ p.1.log ++ obsMark ++ p.2 ++ thoughtMark,
   p.1.log ++ latestSep ++ p.2)

/-- The `for action, observation in intermediate_steps` loop of
`format_messages`, returning `(thoughts, latest_thoughts)` starting from
`("", "")`. -/
def scratchpadFold (intermediate_steps : List (AgentAction × List Char)) :
    List Char × List Char :=
  intermediate_steps.foldl sfStep ([], [])

/-- The rendering of one step that the spec ascribes to the scratchpad:
`<actionLog>\nObservation: <observation>\nThought: `. -/
def renderStep (p : AgentAction × List Char) : List Char :=
  p.1.log ++ obsMark ++ p.2 ++ thoughtMark

/-- The label opening a non-empty history block. -/
def histLabel : List Char := chars "Previous conversation history:\n"

/-- The `chat_history` template variable computed by `format_messages`:
`"Previous conversation history:\n" + "\n".join(self.chat_history)` when the
history list is truthy (non-empty), `""` otherwise. -/
def chatHistoryVar (chat_history : List (List Char)) : List Char :=
  if chat_history = [] then []
  else histLabel ++ List.intercalate (chars "\n") chat_history

/-- The `tools` template variable: `"\n".join(f"{tool.name}: {tool.description}")`.
A tool is modelled by its (name, description) pair here. -/
def toolsVar (tools : List (List Char × List Char)) : List Char :=
  List.intercalate (chars "\n") (tools.map (fun t => t.1 ++ chars ": " ++ t.2))

/-- The `tool_names` template variable: `", ".join(tool.name)`. -/
def toolNamesVar (tools : List (List Char × List Char)) : List Char :=
  List.intercalate (chars ", ") (tools.map (·.1))

/-- The base template of `handle_chat_with_agents` instantiated at its six
placeholders (`{actor}` twice via `format_map(SafeDict(actor=actor))`, then
`{tools}`, `{tool_names}`, `{chat_history}`, `{input}`, `{agent_scratchpad}`
via `.format(**kwargs)`), written as the concatenation of the literal
segments of the template with the substituted values (faithful whenever the actor
text itself contains no brace placeholders). -/
def templateRender (actor toolsS toolNamesS chatHistS input scratchpad : List Char) :
    List Char :=
  chars "Act as a " ++ actor ++
  chars " and have a conversation with a human. Answer the following questions as best you can. \n\nYou have access to the following tools:\n\n" ++
  toolsS ++
  chars "\n\nYou must use the following format in every response:\n\nQuestion: the input question you must answer\nThought: you should always think about what to do\nAction: the action to take, only be one of [" ++
  toolNamesS ++
  chars "], don\x27t include other words\nAction Input: the input to the action\nObservation: the result of the action\n... (this Thought/Action/Action Input/Observation can repeat N times)\nThought: I now know the final answer\nFinal Answer: the final answer to the original input question\n\nBegin! Remember to speak as a " ++
  actor ++
  chars " when giving your final answer. If you are sure you have the final answer or no action needed, you must respond \"Final Answer: <answer>\" in question\x27s language in this final answer only. If you are not sure, you can continue to use the tools.\n\n" ++
  chatHistS ++
  chars "\n\nQuestion: " ++ input ++ chars "\n" ++ scratchpad

/-- Embedding of `CustomPromptTemplate.format_messages` from `src/langchain.py`.  It
returns the content of the single `HumanMessage` it builds, paired with the
list of arguments passed to the `thoughts_cb` callback (in call order); the
callback itself is opaque side-effecting code, so its invocations are
modelled by recording their arguments.  `thoughts_cb` is `true` when a
callback is configured (`if self.thoughts_cb:`). -/
def CustomPromptTemplate.format_messages
    (tools : List (List Char × List Char)) (chat_history : List (List Char))
    (thoughts_cb : Bool) (actor input : List Char)
    (intermediate_steps : List (AgentAction × List Char)) :
    List Char × List (List Char) :=
  let f := scratchpadFold intermediate_steps
  let calls := if thoughts_cb then [pyTrim f.2] else []
  (templateRender actor (toolsVar tools) (toolNamesVar tools)
    (chatHistoryVar chat_history) input f.1, calls)

/-- The result dictionary of the executor before `handle_chat_with_agents` marks
it: `output` plus the `intermediate_steps` trace
(`return_intermediate_steps=True`). -/
structure LoopResult where
  output : List Char
  intermediate_steps : List (AgentAction × List Char)
  deriving Repr

/-- The dictionary `handle_chat_with_agents` returns to its caller. -/
structure ChatResult where
  success : Bool
  output : Option (List Char)
  intermediate_steps : List (AgentAction × List Char)
  error : Option (List (List Char))
  deriving Repr

/-- Modelled from the spec: the agent loop of §4.3, which the source
delegates to the external `LLMSingleActionAgent`/`AgentExecutor` (library
code, not in the repository sources).  Each iteration requests a model
completion for the current trace (`complete` abstracts the model service
plus prompt construction), parses it with `CustomOutputParser.parse` — a
parse failure propagates out of the loop as an exception — then dispatches
the named tool (a name outside the allowed set is a protocol violation that
fails the run), appends the observation to the trace and repeats; the
iteration cap ends the run non-exceptionally with a stop message. -/
def execLoop (complete : List (AgentAction × List Char) → List Char)
    (tools : List (List Char × (List Char → List Char))) :
    Nat → List (AgentAction × List Char) → Except PyExn LoopResult
  | 0, steps =>
    .ok ⟨chars "Agent stopped due to iteration limit or time limit.", steps⟩
  | fuel + 1, steps =>
    match CustomOutputParser.parse (complete steps) with
    | .error e => .error e
    | .ok (.finish out _) => .ok ⟨out, steps⟩
    | .ok (.act a) =>
      match tools.find? (fun t => t.1 = a.tool) with
      | none => .error ⟨[chars "Protocol violation: tool is not a valid tool."]⟩
      | some t => execLoop complete tools fuel (steps ++ [(a, t.2 a.tool_input)])

/-- Embedding of `handle_chat_with_agents` from `src/langchain.py`: the whole run sits in
a `try:` block; on normal completion the result dictionary of the executor gets
`result["success"] = True`; `except Exception as e:` converts any raised
exception into `{"success": False, "error": e.args}`. -/
def handle_chat_with_agents (complete : List (AgentAction × List Char) → List Char)
    (tools : List (List Char × (List Char → List Char)))
    (max_iterations : Nat) : ChatResult :=
  match execLoop complete tools max_iterations [] with
  | .ok r =>
    { success := true, output := some r.output,
      intermediate_steps := r.intermediate_steps, error := none }
  | .error e =>
    { success := false, output := none, intermediate_steps := [], error := some e.args }

/-- The `Output_Type` literal of `src/tools/replicate.py`. -/
inductive OutputType where
  | image
  | single_image
  | text
  | transcription
  | audio
  deriving DecidableEq, Repr

/-- The string value of each `Output_Type` tag. -/
def outputTypeStr : OutputType → List Char
  | .image => chars "image"
  | .single_image => chars "single_image"
  | .text => chars "text"
  | .transcription => chars "transcription"
  | .audio => chars "audio"

/-- A JSON scalar value; enough structure for the dictionaries the adapter
manipulates (the adapter never inspects the values of the backend). -/
inductive JVal where
  | s (v : List Char)
  | n (v : Int)
  | null
  deriving DecidableEq, Repr

/-- A JSON object / Python dict as an ordered association list (Python dicts
hold each key once). -/
abbrev JObj := List (List Char × JVal)

/-- Python `d[k]` as a total lookup: the value at the first entry whose key
is `k`. -/
def lookupKey (k : List Char) : JObj → Option JVal
  | [] => none
  | p :: rest => if p.1 = k then some p.2 else lookupKey k rest

/-- Python `k in d`. -/
def hasKey (k : List Char) : JObj → Bool
  | [] => false
  | p :: rest => p.1 = k || hasKey k rest

/-- Remove every entry with key `k`. -/
def delAll (k : List Char) : JObj → JObj
  | [] => []
  | p :: rest => if p.1 = k then delAll k rest else p :: delAll k rest

/-- Replace the value at every entry with key `k` by `v`. -/
def setVal (k : List Char) (v : JVal) : JObj → JObj
  | [] => []
  | p :: rest => if p.1 = k then (k, v) :: setVal k v rest else p :: setVal k v rest

/-- Python `d[k] = v`: update the entry in place when the key is present,
append the new entry otherwise. -/
def setKey (d : JObj) (k : List Char) (v : JVal) : JObj :=
  if hasKey k d then setVal k v d else d ++ [(k, v)]

/-- Python `del d[k]`: raises `KeyError(k)` when the key is absent. -/
def delKey (k : List Char) (d : JObj) : Except PyExn JObj :=
  if hasKey k d then .ok (delAll k d) else .error ⟨[k]⟩

/-- The value `create_prediction` returns: the `{"success": True, "replicate",
"input", "model": {"name", "version"}}` dictionary on the normal path, and
`{"success": False, "error": e.args}` from the `except` branch. -/
structure ToolResult where
  success : Bool
  replicate : Option JObj
  inputPayload : Option JObj
  model : Option (List Char × List Char)
  error : Option (List (List Char))
  deriving Repr

/-- Embedding of `create_prediction` from `src/tools/replicate.py`.

`decode` stands for `parse_json_string(decode_protected_output(query))`;
those helpers live in `src/utils/helper.py`, which is not among the sources,
so they are modelled from the spec: decoding of a structured key/value
payload encoded as text, which fails (raises) on malformed payloads.
`backend` stands for the external `replicate` client calls
(`models.get`, `versions.get`, `predictions.create` and the
`json.loads(prediction.json())` round-trip), an opaque job-creation call
keyed by the decoded input that may raise.  Everything runs inside `try:`;
any exception is converted to `{"success": False, "error": e.args}`.  On the
normal path the prediction dictionary gets `prediction["output_type"] =
output_type` followed by `del prediction["version"]`. -/
def create_prediction
    (decode : List Char → Except PyExn JObj)
    (backend : JObj → Except PyExn JObj)
    (model_name model_version query : List Char) (output_type : OutputType) :
    ToolResult :=
  match decode query with
  | .error e =>
    { success := false, replicate := none, inputPayload := none, model := none,
      error := some e.args }
  | .ok input =>
    match backend input with
    | .error e =>
      { success := false, replicate := none, inputPayload := none, model := none,
        error := some e.args }
    | .ok pred0 =>
      match delKey (chars "version")
          (setKey pred0 (chars "output_type") (.s (outputTypeStr output_type))) with
      | .error e =>
        { success := false, replicate := none, inputPayload := none, model := none,
          error := some e.args }
      | .ok pred =>
        { success := true, replicate := some pred, inputPayload := some input,
          model := some (model_name, model_version), error := none }

/-- The `stable-diffusion` tool adapter. -/
def stable_diffusion (decode : List Char → Except PyExn JObj)
    (backend : JObj → Except PyExn JObj) (query : List Char) : ToolResult :=
  create_prediction decode backend (chars "stability-ai/stable-diffusion")
    (chars "db21e45d3f7023abc2a46ee38a23973f6dce16bb082a930b0c49861f96d1e5bf")
    query .image

/-- The `openjourney` tool adapter. -/
def openjourney (decode : List Char → Except PyExn JObj)
    (backend : JObj → Except PyExn JObj) (query : List Char) : ToolResult :=
  create_prediction decode backend (chars "prompthero/openjourney")
    (chars "9936c2001faa2194a261c01381f90e65261879985476014a0a37a334593a05eb")
    query .image

/-- The `blip-2` tool adapter. -/
def blip_2 (decode : List Char → Except PyExn JObj)
    (backend : JObj → Except PyExn JObj) (query : List Char) : ToolResult :=
  create_prediction decode backend (chars "andreasjansson/blip-2")
    (chars "4b32258c42e9efd4288bb9910bc532a69727f9acd26aa08e175713a0a857a608")
    query .text

/-- The `img2prompt` tool adapter. -/
def img2prompt (decode : List Char → Except PyExn JObj)
    (backend : JObj → Except PyExn JObj) (query : List Char) : ToolResult :=
  create_prediction decode backend (chars "methexis-inc/img2prompt")
    (chars "50adaf2d3ad20a6f911a8a9e3ccf777b263b8596fbd2c8fc26e8888f8a0edbb5")
    query .text

/-- The `controlnet-hough` tool adapter. -/
def controlnet_hough (decode : List Char → Except PyExn JObj)
    (backend : JObj → Except PyExn JObj) (query : List Char) : ToolResult :=
  create_prediction decode backend (chars "jagilley/controlnet-hough")
    (chars "854e8727697a057c525cdb45ab037f64ecca770a1769cc52287c2e56472a247b")
    query .image

/-- The `controlnet-scribble` tool adapter. -/
def controlnet_scribble (decode : List Char → Except PyExn JObj)
    (backend : JObj → Except PyExn JObj) (query : List Char) : ToolResult :=
  create_prediction decode backend (chars "jagilley/controlnet-scribble")
    (chars "435061a1b5a4c1e26740464bf786efdfa9cb3a3ac488595a2de23e143fdb0117")
    query .image

/-- The `instruct-pix2pix` tool adapter. -/
def instruct_pix2pix (decode : List Char → Except PyExn JObj)
    (backend : JObj → Except PyExn JObj) (query : List Char) : ToolResult :=
  create_prediction decode backend (chars "timothybrooks/instruct-pix2pix")
    (chars "30c1d0b916a6f8efce20493f5d61ee27491ab2a60437c13c588468b9810ec23f")
    query .image

/-- The `codeformer` tool adapter. -/
def codeformer (decode : List Char → Except PyExn JObj)
    (backend : JObj → Except PyExn JObj) (query : List Char) : ToolResult :=
  create_prediction decode backend (chars "sczhou/codeformer")
    (chars "7de2ea26c616d5bf2245ad0d5e24f0ff9a6204578a5c876db53142edd9d2cd56")
    query .single_image

/-- The `audio-ldm` tool adapter. -/
def audio_ldm (decode : List Char → Except PyExn JObj)
    (backend : JObj → Except PyExn JObj) (query : List Char) : ToolResult :=
  create_prediction decode backend (chars "haoheliu/audio-ldm")
    (chars "b61392adecdd660326fc9cfc5398182437dbe5e97b5decfb36e1a36de68b5b95")
    query .audio

/-! ### Supporting lemmas about the embedded string primitives -/

lemma isPrefixOf_ne_head (a x : Char) (as v : List Char) (h : a ≠ x) :
    (a :: as).isPrefixOf (x :: v) = false := by
  simp [List.isPrefixOf, h]

lemma afterLast_cons_of_ne (a x : Char) (as v : List Char) (h : a ≠ x) :
    afterLast (a :: as) (x :: v) = afterLast (a :: as) v := by
  cases hv : afterLast (a :: as) v with
  | some r => simp [afterLast, hv]
  | none => simp [afterLast, hv, isPrefixOf_ne_head a x as v h]

lemma afterLast_append_no_head (a : Char) (as w u : List Char) (h : a ∉ w) :
    afterLast (a :: as) (w ++ u) = afterLast (a :: as) u := by
  induction w with
  | nil => rfl
  | cons x xs ih =>
    have hx : a ≠ x := fun e => h (e ▸ List.mem_cons_self x xs)
    rw [List.cons_append, afterLast_cons_of_ne a x as (xs ++ u) hx,
      ih (fun hm => h (List.mem_cons_of_mem x hm))]

lemma afterLast_cons_nomatch (m : List Char) (c : Char) (rest : List Char)
    (h : m.isPrefixOf (c :: rest) = false) :
    afterLast m (c :: rest) = afterLast m rest := by
  cases hv : afterLast m rest with
  | some r => simp [afterLast, hv]
  | none => simp [afterLast, hv, h]

lemma afterLast_none_iff (m : List Char) (hm : m ≠ []) :
    ∀ u, afterLast m u = none ↔ containsSub m u = false := by
  intro u
  induction u with
  | nil =>
    cases m with
    | nil => exact absurd rfl hm
    | cons a as => simp [afterLast, containsSub, List.isEmpty]
  | cons c rest ih =>
    cases hv : afterLast m rest with
    | some r =>
      have hocc : containsSub m rest = true := by
        cases hcc : containsSub m rest with
        | true => rfl
        | false => rw [ih.mpr hcc] at hv; cases hv
      simp [afterLast, hv, containsSub, hocc]
    | none =>
      have hrest : containsSub m rest = false := ih.mp hv
      cases hp : m.isPrefixOf (c :: rest) with
      | true => simp [afterLast, hv, hp, containsSub, hrest]
      | false => simp [afterLast, hv, hp, containsSub, hrest]

lemma containsSub_append_of_right (m w t : List Char) (h : containsSub m t = true) :
    containsSub m (w ++ t) = true := by
  induction w with
  | nil => simpa using h
  | cons x xs ih => simp [containsSub, ih]

lemma afterLast_decomp (m : List Char) (hm : m ≠ []) :
    ∀ u r, afterLast m u = some r →
      ∃ a, u = a ++ m ++ r ∧ containsSub m r = false := by
  intro u
  induction u with
  | nil => intro r h; simp [afterLast] at h
  | cons c rest ih =>
    intro r h
    cases hv : afterLast m rest with
    | some r0 =>
      have hr0 : r0 = r := by simpa [afterLast, hv] using h
      obtain ⟨a, ha, hocc⟩ := ih r0 hv
      exact ⟨c :: a, by simp [ha, hr0.symm], hr0 ▸ hocc⟩
    | none =>
      cases hp : m.isPrefixOf (c :: rest) with
      | false => simp [afterLast, hv, hp] at h
      | true =>
        have hdrop : List.drop m.length (c :: rest) = r := by
          simpa [afterLast, hv, hp] using h
        have hpre : m <+: c :: rest := List.isPrefixOf_iff_prefix.mp hp
        obtain ⟨t, ht⟩ := hpre
        have hr : r = t := by rw [← hdrop, ← ht, List.drop_left]
        have hrest : containsSub m rest = false := (afterLast_none_iff m hm rest).mp hv
        refine ⟨[], by simp [← ht, hr], ?_⟩
        cases m with
        | nil => exact absurd rfl hm
        | cons b bs =>
          have hbt : bs ++ t = rest := by
            have ht2 : b :: (bs ++ t) = c :: rest := ht
            injection ht2 with h1 h2
          subst hr
          cases hct : containsSub (b :: bs) r with
          | false => rfl
          | true =>
            rw [← hbt, containsSub_append_of_right (b :: bs) bs r hct] at hrest
            cases hrest

lemma pySplitAux_ne_nil (m : List Char) : ∀ fuel s, pySplitAux m fuel s ≠ [] := by
  intro fuel s
  cases s with
  | nil => cases fuel <;> simp [pySplitAux]
  | cons c rest =>
    cases fuel with
    | zero => simp [pySplitAux]
    | succ n =>
      simp only [pySplitAux]
      split
      · simp
      · split <;> simp

lemma lastPart_cons_of_ne_nil (x : List Char) (l : List (List Char)) (h : l ≠ []) :
    lastPart (x :: l) = lastPart l := by
  cases l with
  | nil => exact absurd rfl h
  | cons y ys => simp [lastPart, List.getLastD_cons]

lemma pySplitAux_of_not_contains (m : List Char) :
    ∀ fuel s, s.length ≤ fuel → containsSub m s = false → pySplitAux m fuel s = [s] := by
  intro fuel
  induction fuel with
  | zero =>
    intro s hle _
    cases s with
    | nil => simp [pySplitAux]
    | cons c rest => simp at hle
  | succ n ih =>
    intro s hle hc
    cases s with
    | nil => simp [pySplitAux]
    | cons c rest =>
      have hp : m.isPrefixOf (c :: rest) = false := by
        cases hpp : m.isPrefixOf (c :: rest) with
        | false => rfl
        | true => simp [containsSub, hpp] at hc
      have hcr : containsSub m rest = false := by
        simpa [containsSub, hp] using hc
      have hlen : rest.length ≤ n := by simp at hle; omega
      simp [pySplitAux, hp, ih rest hlen hcr]

lemma two_le_pySplitAux (m : List Char) (hm : m ≠ []) :
    ∀ fuel s, s.length ≤ fuel → containsSub m s = true →
      2 ≤ (pySplitAux m fuel s).length := by
  intro fuel
  induction fuel with
  | zero =>
    intro s hle hc
    cases s with
    | nil =>
      cases m with
      | nil => exact absurd rfl hm
      | cons b bs => simp [containsSub, List.isEmpty] at hc
    | cons c rest => simp at hle
  | succ n ih =>
    intro s hle hc
    cases s with
    | nil =>
      cases m with
      | nil => exact absurd rfl hm
      | cons b bs => simp [containsSub, List.isEmpty] at hc
    | cons c rest =>
      cases hp : m.isPrefixOf (c :: rest) with
      | true =>
        have h1 : 0 < (pySplitAux m n (List.drop (m.length - 1) rest)).length :=
          List.length_pos.mpr (pySplitAux_ne_nil m n _)
        simp [pySplitAux, hp]
        omega
      | false =>
        have hcr : containsSub m rest = true := by
          simpa [containsSub, hp] using hc
        have hlen : rest.length ≤ n := by simp at hle; omega
        have h2 := ih rest hlen hcr
        cases hps : pySplitAux m n rest with
        | nil => exact absurd hps (pySplitAux_ne_nil m n rest)
        | cons h t =>
          rw [hps] at h2
          simp at h2
          simp [pySplitAux, hp, hps]
          omega

lemma lastPart_pySplitAux :
    ∀ fuel s, s.length ≤ fuel →
      lastPart (pySplitAux finalMarker fuel s) = (afterLast finalMarker s).getD s := by
  intro fuel
  induction fuel with
  | zero =>
    intro s hle
    cases s with
    | nil => simp [pySplitAux, lastPart, afterLast]
    | cons c rest => simp at hle
  | succ n ih =>
    intro s hle
    cases s with
    | nil => simp [pySplitAux, lastPart, afterLast]
    | cons c rest =>
      cases hp : finalMarker.isPrefixOf (c :: rest) with
      | true =>
        obtain ⟨t, ht⟩ := List.isPrefixOf_iff_prefix.mp hp
        have ht2 : 'F' :: (chars "inal Answer:" ++ t) = c :: rest := ht
        have hc : 'F' = c := (List.cons.inj ht2).1
        have hrest : chars "inal Answer:" ++ t = rest := (List.cons.inj ht2).2
        have hdrop : List.drop (finalMarker.length - 1) rest = t := by
          rw [← hrest]
          exact List.drop_left (chars "inal Answer:") t
        have hne := pySplitAux_ne_nil finalMarker n (List.drop (finalMarker.length - 1) rest)
        have hlt : (List.drop (finalMarker.length - 1) rest).length ≤ n := by
          rw [List.length_drop]
          simp at hle
          omega
        have hL : lastPart (pySplitAux finalMarker (n + 1) (c :: rest))
            = (afterLast finalMarker t).getD t := by
          rw [show pySplitAux finalMarker (n + 1) (c :: rest)
              = [] :: pySplitAux finalMarker n (List.drop (finalMarker.length - 1) rest) from by
            simp [pySplitAux, hp]]
          rw [lastPart_cons_of_ne_nil _ _ hne, ih _ hlt, hdrop]
        have hskip : afterLast finalMarker rest = afterLast finalMarker t := by
          rw [← hrest]
          exact afterLast_append_no_head 'F' (chars "inal Answer:") (chars "inal Answer:") t
            (by decide)
        have hdrop13 : List.drop finalMarker.length (c :: rest) = t := by
          rw [← hc, ← hrest]
          exact List.drop_left finalMarker t
        rw [hL]
        cases hA : afterLast finalMarker t with
        | some r =>
          have hfull : afterLast finalMarker (c :: rest) = some r := by
            simp [afterLast, hskip, hA]
          simp [hfull, hA]
        | none =>
          have hfull : afterLast finalMarker (c :: rest) = some t := by
            simp [afterLast, hskip, hA, hp, hdrop13]
          simp [hfull, hA]
      | false =>
        have hAL : afterLast finalMarker (c :: rest) = afterLast finalMarker rest :=
          afterLast_cons_nomatch _ _ _ hp
        have hlen : rest.length ≤ n := by simp at hle; omega
        cases hocc : containsSub finalMarker rest with
        | true =>
          have h2 := two_le_pySplitAux finalMarker (by decide) n rest hlen hocc
          cases hps : pySplitAux finalMarker n rest with
          | nil => exact absurd hps (pySplitAux_ne_nil _ _ _)
          | cons h t =>
            have hres : pySplitAux finalMarker (n + 1) (c :: rest) = (c :: h) :: t := by
              simp [pySplitAux, hp, hps]
            rw [hres]
            cases t with
            | nil => rw [hps] at h2; simp at h2
            | cons t0 ts =>
              rw [lastPart_cons_of_ne_nil _ _ (by simp),
                (lastPart_cons_of_ne_nil h (t0 :: ts) (by simp)).symm, ← hps,
                ih rest hlen, hAL]
              have hnn : afterLast finalMarker rest ≠ none := by
                intro h0
                have hf := (afterLast_none_iff finalMarker (by decide) rest).mp h0
                rw [hocc] at hf
                cases hf
              cases hA : afterLast finalMarker rest with
              | none => exact absurd hA hnn
              | some r => simp
        | false =>
          have hres : pySplitAux finalMarker n rest = [rest] :=
            pySplitAux_of_not_contains _ n rest hlen hocc
          have hfull : pySplitAux finalMarker (n + 1) (c :: rest) = [c :: rest] := by
            simp [pySplitAux, hp, hres]
          rw [hfull, hAL, (afterLast_none_iff finalMarker (by decide) rest).mpr hocc]
          simp [lastPart]

lemma afterLast_append_marker :
    ∀ a : List Char, afterLast finalMarker (a ++ finalMarker) = some [] := by
  intro a
  induction a with
  | nil => decide
  | cons x xs ih =>
    have h : afterLast finalMarker (x :: (xs ++ finalMarker)) = some [] := by
      simp [afterLast, ih]
    simpa using h

lemma scratchpadFold_fst_aux :
    ∀ (steps : List (AgentAction × List Char)) (init : List Char × List Char),
      (List.foldl sfStep init steps).1 = init.1 ++ (steps.map renderStep).flatten := by
  intro steps
  induction steps with
  | nil => intro init; simp
  | cons p ps ih =>
    intro init
    rw [List.foldl_cons, ih]
    simp [sfStep, renderStep, List.append_assoc]

lemma scratchpadFold_snd_aux :
    ∀ (steps : List (AgentAction × List Char)) (init : List Char × List Char),
      (List.foldl sfStep init steps).2 =
        match steps.getLast? with
        | some p => p.1.log ++ latestSep ++ p.2
        | none => init.2 := by
  intro steps
  induction steps with
  | nil => intro init; rfl
  | cons p ps ih =>
    intro init
    rw [List.foldl_cons, ih]
    cases ps with
    | nil => rfl
    | cons q qs =>
      rw [List.getLast?_cons_cons]
      cases hq : (q :: qs).getLast? with
      | none =>
        have hs : (q :: qs).getLast?.isSome = true := List.getLast?_isSome.mpr (by simp)
        rw [hq] at hs
        cases hs
      | some x => rfl

lemma thoughtMark_eq : thoughtMark = '\n' :: chars "Thought: " := rfl

lemma thought_suffix_renderStep (p : AgentAction × List Char) :
    chars "Thought: " <:+ renderStep p :=
  ⟨p.1.log ++ obsMark ++ p.2 ++ ['\n'], by
    simp [renderStep, thoughtMark_eq, List.append_assoc]⟩

lemma thought_suffix_flatten :
    ∀ (rest : List (AgentAction × List Char)) (p : AgentAction × List Char),
      chars "Thought: " <:+ ((p :: rest).map renderStep).flatten := by
  intro rest
  induction rest with
  | nil => intro p; simpa using thought_suffix_renderStep p
  | cons q qs ih =>
    intro p
    have hstep : ((p :: q :: qs).map renderStep).flatten
        = renderStep p ++ ((q :: qs).map renderStep).flatten := by simp
    rw [hstep]
    exact (ih q).trans (List.suffix_append _ _)

lemma lookupKey_delAll_self (k : List Char) : ∀ d : JObj, lookupKey k (delAll k d) = none := by
  intro d
  induction d with
  | nil => rfl
  | cons p rest ih =>
    by_cases h : p.1 = k
    · simp [delAll, h, ih]
    · simp [delAll, h, lookupKey, ih]

lemma lookupKey_delAll_ne (k k' : List Char) (hkk : k ≠ k') :
    ∀ d : JObj, lookupKey k (delAll k' d) = lookupKey k d := by
  intro d
  induction d with
  | nil => rfl
  | cons p rest ih =>
    by_cases h : p.1 = k'
    · have h2 : ¬ p.1 = k := fun e => hkk (e.symm.trans h)
      simp [delAll, h, lookupKey, h2, ih, Ne.symm hkk]
    · by_cases h2 : p.1 = k
      · simp [delAll, h, lookupKey, h2, hkk]
      · simp [delAll, h, lookupKey, h2, ih]

lemma hasKey_false_lookup (k : List Char) :
    ∀ d : JObj, hasKey k d = false → lookupKey k d = none := by
  intro d
  induction d with
  | nil => intro _; rfl
  | cons p rest ih =>
    intro h
    simp [hasKey] at h
    simp [lookupKey, h.1, ih h.2]

lemma lookupKey_append_of_none (k : List Char) (e : JObj) :
    ∀ d : JObj, lookupKey k d = none → lookupKey k (d ++ e) = lookupKey k e := by
  intro d
  induction d with
  | nil => intro _; rfl
  | cons p rest ih =>
    intro h
    by_cases hp : p.1 = k
    · simp [lookupKey, hp] at h
    · simp [lookupKey, hp] at h ⊢
      exact ih h

lemma lookupKey_setVal_self (k : List Char) (v : JVal) :
    ∀ d : JObj, hasKey k d = true → lookupKey k (setVal k v d) = some v := by
  intro d
  induction d with
  | nil => intro h; cases h
  | cons p rest ih =>
    intro h
    by_cases hp : p.1 = k
    · simp [setVal, hp, lookupKey]
    · have hr : hasKey k rest = true := by simpa [hasKey, hp] using h
      simp [setVal, hp, lookupKey, ih hr]

lemma lookupKey_setKey_self (d : JObj) (k : List Char) (v : JVal) :
    lookupKey k (setKey d k v) = some v := by
  unfold setKey
  by_cases h : hasKey k d = true
  · simp [h, lookupKey_setVal_self k v d h]
  · have hb : hasKey k d = false := by simpa using h
    rw [if_neg h, lookupKey_append_of_none k [(k, v)] d (hasKey_false_lookup k d hb)]
    simp [lookupKey]

/-! ### Claim theorems -/

/-- C1: for every model-output string containing the marker `"Final Answer:"`,
`parse` returns a `FinalAnswer` whose text is exactly the substring after the
last occurrence of the marker (the input decomposes as `a ++ marker ++ r`
with no further marker occurrence inside `r`), trimmed of surrounding
whitespace; the branch short-circuits the action grammar, so such a string is
never parsed as an `ActionRequest`. -/
theorem final_answer_precedence (s : List Char)
    (h : containsSub finalMarker s = true) :
    ∃ a r, s = a ++ finalMarker ++ r ∧ containsSub finalMarker r = false ∧
      CustomOutputParser.parse s = .ok (.finish (pyTrim r) s) := by
  have hsome : ∃ r, afterLast finalMarker s = some r := by
    cases hA : afterLast finalMarker s with
    | none =>
      have hc := (afterLast_none_iff finalMarker (by decide) s).mp hA
      rw [h] at hc
      cases hc
    | some r => exact ⟨r, rfl⟩
  obtain ⟨r, hr⟩ := hsome
  obtain ⟨a, ha, hocc⟩ := afterLast_decomp finalMarker (by decide) s r hr
  refine ⟨a, r, ha, hocc, ?_⟩
  have hlast : lastPart (pySplit finalMarker s) = r := by
    unfold pySplit
    rw [lastPart_pySplitAux s.length s (le_refl _), hr]
    rfl
  unfold CustomOutputParser.parse
  rw [if_pos h, hlast]

/-- Witness for `final_answer_precedence` at the two-marker example
from the spec. -/
theorem final_answer_precedence_witness :
    containsSub finalMarker (chars "Final Answer: A\nFinal Answer: B") = true ∧
    ∃ a r, chars "Final Answer: A\nFinal Answer: B" = a ++ finalMarker ++ r ∧
      containsSub finalMarker r = false ∧
      CustomOutputParser.parse (chars "Final Answer: A\nFinal Answer: B") =
        .ok (.finish (pyTrim r) (chars "Final Answer: A\nFinal Answer: B")) :=
  ⟨by decide, final_answer_precedence _ (by decide)⟩

/-- C10: any input containing `"Final Answer:"` parses without raising, to a
`FinalAnswer`; in particular when the marker is the final content of the
string the answer text is the empty string, not an error. -/
theorem parse_never_fails_on_final_marker (s : List Char)
    (h : containsSub finalMarker s = true) :
    (∃ t, CustomOutputParser.parse s = .ok (.finish t s)) ∧
    (∀ a, s = a ++ finalMarker → CustomOutputParser.parse s = .ok (.finish [] s)) := by
  constructor
  · refine ⟨pyTrim (lastPart (pySplit finalMarker s)), ?_⟩
    unfold CustomOutputParser.parse
    rw [if_pos h]
  · intro a ha
    have hlast : lastPart (pySplit finalMarker s) = [] := by
      unfold pySplit
      rw [lastPart_pySplitAux s.length s (le_refl _), ha, afterLast_append_marker a]
      rfl
    unfold CustomOutputParser.parse
    rw [if_pos h, hlast]
    rfl

/-- Witness for `parse_never_fails_on_final_marker`: the marker alone parses
to an empty final answer. -/
theorem parse_never_fails_on_final_marker_witness :
    containsSub finalMarker finalMarker = true ∧
    CustomOutputParser.parse finalMarker = .ok (.finish [] finalMarker) :=
  ⟨by decide, (parse_never_fails_on_final_marker finalMarker (by decide)).2 [] rfl⟩

/-- C2 counterexample: on the round-trip example from the spec the parsed tool input
is NOT `"hello world"`: the trailing newline survives `.strip(" ")` (which
removes only spaces, not all whitespace), so the closing quote is not at the
end and quote-stripping removes only the opening quote. -/
theorem action_input_strip_counterexample :
    CustomOutputParser.parse
        (chars "Thought: x\nAction: search\nAction Input: \"hello world\"\n") =
      .ok (.act ⟨chars "search", chars "hello world\"\n",
        chars "Thought: x\nAction: search\nAction Input: \"hello world\"\n"⟩) ∧
    chars "hello world\"\n" ≠ chars "hello world" :=
  ⟨by decide, by decide⟩

/-- C2 (amended): without `"Final Answer:"`, a string matching the action
regex parses to an `ActionRequest` whose tool name is the captured name
trimmed of whitespace and whose tool input is the captured remainder stripped
of surrounding space characters (spaces only) and then of every surrounding
double-quote character. -/
theorem action_grammar_parse (s g1 g2 : List Char)
    (hf : containsSub finalMarker s = false)
    (hm : actionMatch s = some (g1, g2)) :
    CustomOutputParser.parse s =
      .ok (.act ⟨pyTrim g1,
        pyStrip (fun c => c = '"') (pyStrip (fun c => c = ' ') g2), s⟩) := by
  unfold CustomOutputParser.parse
  rw [if_neg (by simp [hf]), hm]

/-- Witness for `action_grammar_parse`: the round-trip example without the
trailing newline does parse to tool input `"hello world"`. -/
theorem action_grammar_parse_witness :
    containsSub finalMarker
        (chars "Thought: x\nAction: search\nAction Input: \"hello world\"") = false ∧
    actionMatch (chars "Thought: x\nAction: search\nAction Input: \"hello world\"") =
      some (chars "search", chars "\"hello world\"") ∧
    CustomOutputParser.parse
        (chars "Thought: x\nAction: search\nAction Input: \"hello world\"") =
      .ok (.act ⟨chars "search", chars "hello world",
        chars "Thought: x\nAction: search\nAction Input: \"hello world\""⟩) :=
  ⟨by decide, by decide,
    action_grammar_parse _ (chars "search") (chars "\"hello world\"")
      (by decide) (by decide)⟩

/-- C3: when the model output contains neither the final-answer marker nor an
action-grammar match, parsing fails with an error carrying the offending raw
text, and the failure propagates to the caller of the run as a
`success = false` result rather than being silently swallowed. -/
theorem parse_failure_is_run_failure
    (complete : List (AgentAction × List Char) → List Char)
    (tools : List (List Char × (List Char → List Char))) (n : Nat)
    (hf : containsSub finalMarker (complete []) = false)
    (hm : actionMatch (complete []) = none) :
    handle_chat_with_agents complete tools (n + 1) =
      { success := false, output := none, intermediate_steps := [],
        error := some [chars "Could not parse LLM output: `" ++ complete []
          ++ chars "`"] } := by
  have hp : CustomOutputParser.parse (complete []) =
      .error ⟨[chars "Could not parse LLM output: `" ++ complete [] ++ chars "`"]⟩ := by
    unfold CustomOutputParser.parse
    rw [if_neg (by simp [hf]), hm]
  unfold handle_chat_with_agents execLoop
  rw [hp]

/-- Witness for `parse_failure_is_run_failure` on the example from the spec of
unparseable output, with the default iteration cap of 15. -/
theorem parse_failure_is_run_failure_witness :
    containsSub finalMarker (chars "I am thinking...") = false ∧
    actionMatch (chars "I am thinking...") = none ∧
    handle_chat_with_agents (fun _ => chars "I am thinking...") [] 15 =
      { success := false, output := none, intermediate_steps := [],
        error := some [chars "Could not parse LLM output: `"
          ++ chars "I am thinking..." ++ chars "`"] } :=
  ⟨by decide, by decide,
    parse_failure_is_run_failure (fun _ => chars "I am thinking...") [] 14
      (by decide) (by decide)⟩

lemma scratchpadFold_fst (steps : List (AgentAction × List Char)) :
    (scratchpadFold steps).1 = (steps.map renderStep).flatten := by
  have h := scratchpadFold_fst_aux steps ([], [])
  unfold scratchpadFold
  rw [h]
  rfl

lemma scratchpadFold_snd (steps : List (AgentAction × List Char)) :
    (scratchpadFold steps).2 =
      match steps.getLast? with
      | some p => p.1.log ++ latestSep ++ p.2
      | none => [] := by
  have h := scratchpadFold_snd_aux steps ([], [])
  unfold scratchpadFold
  rw [h]

/-- C4 counterexample: with a callback configured and an empty trace,
`format_messages` still invokes the callback — once, with the empty string —
rather than skipping the invocation. -/
theorem thoughts_cb_empty_trace_counterexample :
    (CustomPromptTemplate.format_messages [] [] true [] [] []).2 = [[]] ∧
    ([[]] : List (List Char)) ≠ [] :=
  ⟨rfl, by decide⟩

/-- C4 (amended): a configured callback is invoked exactly once per
`format_messages` call, with the action log of the most recent step +
`"\n\nObservation: "` + observation, trimmed of surrounding whitespace; on an
empty trace it is still invoked once, with the empty string; the invocation
does not affect the formatted output, and no call happens when no callback is
configured. -/
theorem thoughts_cb_calls
    (tools : List (List Char × List Char)) (chat_history : List (List Char))
    (actor input : List Char) (steps : List (AgentAction × List Char)) :
    (CustomPromptTemplate.format_messages tools chat_history true actor input steps).1 =
      (CustomPromptTemplate.format_messages tools chat_history false actor input steps).1 ∧
    (CustomPromptTemplate.format_messages tools chat_history false actor input steps).2
      = [] ∧
    (CustomPromptTemplate.format_messages tools chat_history true actor input steps).2 =
      [pyTrim (match steps.getLast? with
        | some p => p.1.log ++ latestSep ++ p.2
        | none => [])] := by
  refine ⟨rfl, rfl, ?_⟩
  show [pyTrim (scratchpadFold steps).2] = _
  rw [scratchpadFold_snd]

/-- C8: the `agent_scratchpad` variable is the chronological concatenation of
`log ++ "\nObservation: " ++ observation ++ "\nThought: "` over the trace, so
an empty trace renders as the empty string and a non-empty trace always ends
with the dangling `"Thought: "`. -/
theorem agent_scratchpad_rendering :
    (∀ steps, (scratchpadFold steps).1 = (steps.map renderStep).flatten) ∧
    (scratchpadFold []).1 = [] ∧
    (∀ p rest, chars "Thought: " <:+ (scratchpadFold (p :: rest)).1) := by
  refine ⟨scratchpadFold_fst, rfl, fun p rest => ?_⟩
  rw [scratchpadFold_fst]
  exact thought_suffix_flatten rest p

/-- C9: the `chat_history` slot is exactly the empty string for an empty
history — in particular the label does not occur in it — and exactly the
fixed label followed by the newline-joined history otherwise (so the slot
starts with the label line). -/
theorem chat_history_rendering :
    chatHistoryVar [] = [] ∧
    containsSub histLabel (chatHistoryVar []) = false ∧
    (∀ x xs, chatHistoryVar (x :: xs) =
        histLabel ++ List.intercalate (chars "\n") (x :: xs) ∧
      histLabel <+: chatHistoryVar (x :: xs)) := by
  refine ⟨rfl, by decide, fun x xs => ?_⟩
  have he : chatHistoryVar (x :: xs) =
      histLabel ++ List.intercalate (chars "\n") (x :: xs) := by
    simp [chatHistoryVar]
  exact ⟨he, he ▸ List.prefix_append _ _⟩

/-- C5: whenever the tool adapter returns successfully, the `"version"` field
of the backend job-creation response has been deleted before the result is
returned to the loop (`del prediction["version"]`), so the version is not
caller-visible in the returned `replicate` payload.  Every concrete adapter
delegates to `create_prediction`. -/
theorem version_field_stripped
    (decode : List Char → Except PyExn JObj) (backend : JObj → Except PyExn JObj)
    (model_name model_version query : List Char) (output_type : OutputType)
    (h : (create_prediction decode backend model_name model_version query
        output_type).success = true) :
    ∃ p, (create_prediction decode backend model_name model_version query
        output_type).replicate = some p ∧
      lookupKey (chars "version") p = none := by
  cases hd : decode query with
  | error e => simp [create_prediction, hd] at h
  | ok input =>
    cases hb : backend input with
    | error e => simp [create_prediction, hd, hb] at h
    | ok pred0 =>
      cases hk : hasKey (chars "version")
          (setKey pred0 (chars "output_type") (.s (outputTypeStr output_type))) with
      | false => simp [create_prediction, hd, hb, delKey, hk] at h
      | true =>
        refine ⟨delAll (chars "version")
          (setKey pred0 (chars "output_type") (.s (outputTypeStr output_type))), ?_, ?_⟩
        · simp [create_prediction, hd, hb, delKey, hk]
        · exact lookupKey_delAll_self _ _

/-- Witness for `version_field_stripped` at a concrete backend response that
carries a `"version"` field. -/
theorem version_field_stripped_witness :
    (create_prediction (fun _ => .ok []) (fun _ => .ok [(chars "version", JVal.null)])
        [] [] [] .image).success = true ∧
    ∃ p, (create_prediction (fun _ => .ok [])
        (fun _ => .ok [(chars "version", JVal.null)]) [] [] [] .image).replicate
        = some p ∧
      lookupKey (chars "version") p = none :=
  ⟨by decide, version_field_stripped _ _ _ _ _ _ (by decide)⟩

/-- C6: the caller-facing entry point always returns a structured result: an
exception raised anywhere during the run is caught and converted into a
`success = false` result carrying the exception arguments, and a normally
completed run is returned with `success = true`. -/
theorem run_result_structured
    (complete : List (AgentAction × List Char) → List Char)
    (tools : List (List Char × (List Char → List Char))) (max_iterations : Nat) :
    (∃ e : PyExn, execLoop complete tools max_iterations [] = .error e ∧
      handle_chat_with_agents complete tools max_iterations =
        { success := false, output := none, intermediate_steps := [],
          error := some e.args }) ∨
    (∃ r : LoopResult, execLoop complete tools max_iterations [] = .ok r ∧
      handle_chat_with_agents complete tools max_iterations =
        { success := true, output := some r.output,
          intermediate_steps := r.intermediate_steps, error := none }) := by
  cases h : execLoop complete tools max_iterations [] with
  | error e =>
    left
    refine ⟨e, rfl, ?_⟩
    unfold handle_chat_with_agents
    rw [h]
  | ok r =>
    right
    refine ⟨r, rfl, ?_⟩
    unfold handle_chat_with_agents
    rw [h]

/-- C7: the tool adapter never throws past its boundary: every failure
(payload decoding, the backend call, or the final dictionary surgery) is
returned as `success = false` with a captured error, and on success the
result carries the decoded input and the backend job-creation response
augmented with the declared `output_type` tag (with `"version"` removed). -/
theorem adapter_error_captured
    (decode : List Char → Except PyExn JObj) (backend : JObj → Except PyExn JObj)
    (model_name model_version query : List Char) (output_type : OutputType) :
    ((create_prediction decode backend model_name model_version query
        output_type).success = false ∧
      (create_prediction decode backend model_name model_version query
        output_type).error.isSome = true) ∨
    ((create_prediction decode backend model_name model_version query
        output_type).success = true ∧
      ∃ input pred, decode query = .ok input ∧ backend input = .ok pred ∧
        (create_prediction decode backend model_name model_version query
          output_type).inputPayload = some input ∧
        (create_prediction decode backend model_name model_version query
          output_type).model = some (model_name, model_version) ∧
        (create_prediction decode backend model_name model_version query
          output_type).replicate =
          some (delAll (chars "version")
            (setKey pred (chars "output_type") (.s (outputTypeStr output_type)))) ∧
        lookupKey (chars "output_type")
            (delAll (chars "version")
              (setKey pred (chars "output_type") (.s (outputTypeStr output_type))))
          = some (.s (outputTypeStr output_type))) := by
  cases hd : decode query with
  | error e => left; simp [create_prediction, hd]
  | ok input =>
    cases hb : backend input with
    | error e => left; simp [create_prediction, hd, hb]
    | ok pred0 =>
      cases hk : hasKey (chars "version")
          (setKey pred0 (chars "output_type") (.s (outputTypeStr output_type))) with
      | false => left; simp [create_prediction, hd, hb, delKey, hk]
      | true =>
        right
        refine ⟨by simp [create_prediction, hd, hb, delKey, hk], input, pred0, rfl, hb,
          by simp [create_prediction, hd, hb, delKey, hk],
          by simp [create_prediction, hd, hb, delKey, hk],
          by simp [create_prediction, hd, hb, delKey, hk], ?_⟩
        rw [lookupKey_delAll_ne (chars "output_type") (chars "version") (by decide)]
        exact lookupKey_setKey_self _ _ _

